import Mathlib

/-!
Verification of the shard-cipher client-side encryption subsystem.

Shallow embedding of the repository's cryptographic core:
  * `src/src/lib/encryption.ts` — per-file envelope encryption, PBKDF2 key
    derivation, base64 helpers, download-URL codec;
  * `src/src/lib/secureDataManager.ts` — userId-derived encryption of file
    lists / audit logs / profile data;
  * `src/src/lib/fileManager.ts` — encrypted-index read-modify-write (two
    coexisting implementations of `updateUserFileList` / `getUserFileList`);
  * `src/unnamed/part_002` — the `FileDownload` component's key / iv
    validation of the URL fragment.

Modelling conventions:
  * Bytes are `List Nat` (each entry < 256 where it matters).
  * The Web Crypto API (`crypto.subtle`) is modelled as an ideal AEAD: a
    ciphertext records the key, IV and plaintext symbolically and decryption
    succeeds exactly when the same key and IV are presented.  PBKDF2 is an
    ideal (injective) key-derivation function.
  * Randomness (`crypto.getRandomValues`, `generateKey`) is made explicit:
    each random value becomes an entropy argument of the function that draws
    it.
  * `JSON.stringify` / `JSON.parse` of the structured records is modelled by
    a sum type `Plain` of the plaintext shapes that occur, with the parse
    direction partial (a ciphertext of the wrong shape fails to parse).
  * base64 transport (`btoa` / `atob`) is modelled concretely over bytes
    (`base64EncodeList` / `base64DecodeList`); inside the envelope functions
    the base64 wrapping of ciphertext bytes is elided (it is proven to be an
    inverse pair separately), while the URL codec keeps the literal strings.
  * Thrown exceptions / rejected promises become `Except` values.
-/

namespace ShardCipher

/-- Byte sequences: the model of `ArrayBuffer` / `Uint8Array` contents. -/
abbrev Bytes := List Nat

/-- Errors observable from the modelled JavaScript: a rejected
`crypto.subtle.decrypt` (`OperationError`, the AEAD tag failure), a
`JSON.parse` failure (`SyntaxError`), and a failed `atob`
(`InvalidCharacterError`). -/
inductive JsError
  | operationError
  | syntaxError
  | invalidCharacter
  deriving DecidableEq, Repr

/-- CryptoKey model.  A key is either a raw AES-GCM key (as generated by
`generateFileKey` / imported by `importKey('raw', …)`), identified by its raw
bytes, or a PBKDF2-derived key, identified by the password, salt and
iteration count fed to `deriveKey` (ideal KDF: distinct inputs give distinct
keys). -/
inductive CKey
  | aesKey (raw : Bytes)
  | pbkdf2 (password : String) (salt : Bytes) (iterations : Nat)
  deriving DecidableEq, Repr

/-- Metadata record built in `encryptFile` (encryption.ts:123-129) and
recovered by `JSON.parse` in `decryptFile` (encryption.ts:197). -/
structure FileMetadata where
  originalName : String
  size : Nat
  type : String
  lastModified : Nat
  encryptedAt : Nat
  deriving DecidableEq, Repr

/-- One entry of the user's encrypted index: the `EncryptedFileMetadata`
interface of fileManager.ts (both copies declare the same fields). -/
structure FileRecord where
  id : String
  fileId : String
  originalName : String
  size : Nat
  type : String
  uploadDate : String
  expiresAt : Option String
  maxDownloads : Option Nat
  downloadCount : Nat
  key : String
  iv : String
  deriving DecidableEq, Repr

/-- Plaintext shapes fed to `crypto.subtle.encrypt` anywhere in the core:
raw file bytes, a JSON-serialised `FileMetadata` record, or a
JSON-serialised file list.  `JSON.stringify` is injective on these records
and `JSON.parse` inverts it, which the sum-type embedding captures. -/
inductive Plain
  | bytes (b : Bytes)
  | fileMeta (m : FileMetadata)
  | fileList (l : List FileRecord)
  deriving DecidableEq, Repr

/-- Ideal AEAD ciphertext: records the key, IV and plaintext symbolically.
Real AES-GCM ciphertext+tag is opaque; the ideal model exposes exactly the
interface the code relies on (matching key/IV recovers the plaintext, any
mismatch authenticates as a failure). -/
structure AesGcmCiphertext where
  key : CKey
  iv : Bytes
  plaintext : Plain
  deriving DecidableEq, Repr

/-- Model of `crypto.subtle.encrypt({name: 'AES-GCM', iv}, key, data)`. -/
def aesGcmEncrypt (key : CKey) (iv : Bytes) (pt : Plain) : AesGcmCiphertext :=
  ⟨key, iv, pt⟩

/-- Model of `crypto.subtle.decrypt({name: 'AES-GCM', iv}, key, data)`:
succeeds with the plaintext exactly when key and IV match, otherwise the
promise rejects (AEAD tag verification failure). -/
def aesGcmDecrypt (key : CKey) (iv : Bytes) (ct : AesGcmCiphertext) : Option Plain :=
  if ct.key = key ∧ ct.iv = iv then some ct.plaintext else none

/-- Model of `TextEncoder().encode`: code points of the string (injective;
coincides with UTF-8 on the ASCII strings the code feeds it). -/
def encodeText (s : String) : Bytes :=
  s.toList.map Char.toNat

/-! ## Primitive layer (encryption.ts lines 23-71) -/

/-- Model of `generateFileKey` (encryption.ts:24-33): a fresh random 256-bit
AES-GCM key; the platform RNG output is the explicit `entropy` argument. -/
def generateFileKey (entropy : Bytes) : CKey :=
  CKey.aesKey entropy

/-- Model of `deriveKeyFromPassword` (encryption.ts:36-61): PBKDF2-SHA256,
100000 iterations, over the encoded password and the given salt.  The source
performs no input validation whatsoever — it passes the password and salt
straight to `importKey` / `deriveKey` — so the result is always `Except.ok`. -/
def deriveKeyFromPassword (password : String) (salt : Bytes) : Except JsError CKey :=
  Except.ok (CKey.pbkdf2 password salt 100000)

/-- Model of `generateSalt` (encryption.ts:64-66): 16 random bytes, the RNG
output being the explicit argument. -/
def generateSalt (entropy : Bytes) : Bytes :=
  entropy

/-- Model of `generateIV` (encryption.ts:69-71): 12 random bytes, the RNG
output being the explicit argument. -/
def generateIV (entropy : Bytes) : Bytes :=
  entropy

/-! ## base64 helpers (encryption.ts lines 256-273)

`arrayBufferToBase64` builds a binary string from the bytes and calls
`btoa`; `base64ToArrayBuffer` calls `atob` and reads the char codes back.
The model implements standard base64 (RFC 4648, alphabet `A-Z a-z 0-9 + /`
with `=` padding) directly over the byte list. -/

/-- Standard base64 alphabet used by `btoa` / `atob`. -/
def base64Alphabet : List Char :=
  "ABCDEFGHIJKLMNOPQRSTUVWXYZabcdefghijklmnopqrstuvwxyz0123456789+/".toList

/-- Character for a 6-bit group. -/
def b64Char (n : Nat) : Char :=
  base64Alphabet.getD n 'A'

/-- Index of a character in the base64 alphabet. -/
def b64ValAux : List Char → Char → Nat → Option Nat
  | [], _, _ => none
  | a :: rest, c, i => if a = c then some i else b64ValAux rest c (i + 1)

/-- Value of a base64 character, `none` for anything outside the alphabet
(`=` included). -/
def b64Val (c : Char) : Option Nat :=
  b64ValAux base64Alphabet c 0

/-- Model of `btoa` on a byte list: groups of three bytes become four base64
characters, a trailing group of one or two bytes is padded with `=`. -/
def base64EncodeList : Bytes → List Char
  | [] => []
  | [b1] => [b64Char (b1 / 4), b64Char (b1 % 4 * 16), '=', '=']
  | [b1, b2] => [b64Char (b1 / 4), b64Char (b1 % 4 * 16 + b2 / 16), b64Char (b2 % 16 * 4), '=']
  | b1 :: b2 :: b3 :: rest =>
      b64Char (b1 / 4) :: b64Char (b1 % 4 * 16 + b2 / 16) ::
      b64Char (b2 % 16 * 4 + b3 / 64) :: b64Char (b3 % 64) :: base64EncodeList rest

/-- Model of `atob` on a character list (forgiving base64: an unpadded final
group of two or three characters is accepted, `=` is accepted only as final
padding, any character outside the alphabet is rejected). -/
def base64DecodeList : List Char → Option Bytes
  | [] => some []
  | [_] => none
  | [c1, c2] =>
    match b64Val c1, b64Val c2 with
    | some v1, some v2 => some [v1 * 4 + v2 / 16]
    | _, _ => none
  | [c1, c2, c3] =>
    match b64Val c1, b64Val c2, b64Val c3 with
    | some v1, some v2, some v3 => some [v1 * 4 + v2 / 16, v2 % 16 * 16 + v3 / 4]
    | _, _, _ => none
  | c1 :: c2 :: c3 :: c4 :: rest =>
    match b64Val c1, b64Val c2 with
    | some v1, some v2 =>
      if c3 = '=' then
        if c4 = '=' ∧ rest = [] then some [v1 * 4 + v2 / 16] else none
      else
        match b64Val c3 with
        | some v3 =>
          if c4 = '=' then
            if rest = [] then some [v1 * 4 + v2 / 16, v2 % 16 * 16 + v3 / 4] else none
          else
            match b64Val c4, base64DecodeList rest with
            | some v4, some tail =>
              some ((v1 * 4 + v2 / 16) :: (v2 % 16 * 16 + v3 / 4) :: (v3 % 4 * 64 + v4) :: tail)
            | _, _ => none
        | none => none
    | _, _ => none

/-- Membership in the output alphabet of standard base64: the RFC 4648
standard alphabet plus the `=` padding character. -/
def stdB64Char (c : Char) : Bool :=
  base64Alphabet.contains c || c = '='

/-- Membership in the base64url alphabet (`A-Z a-z 0-9 - _`), the "URL-safe
alphabet, safe to embed in a URL without escaping" of the claim. -/
def base64UrlSafeChar (c : Char) : Bool :=
  c.isAlphanum || c = '-' || c = '_'

/-- Model of `arrayBufferToBase64` (encryption.ts:257-264): byte-by-byte
binary string then `btoa`. -/
def arrayBufferToBase64 (buffer : Bytes) : String :=
  String.mk (base64EncodeList buffer)

/-- Model of `base64ToArrayBuffer` (encryption.ts:266-273): `atob` then the
char codes; `atob` throws `InvalidCharacterError` on malformed input. -/
def base64ToArrayBuffer (s : String) : Except JsError Bytes :=
  match base64DecodeList s.toList with
  | some bytes => Except.ok bytes
  | none => Except.error JsError.invalidCharacter

/-! ## File envelope encryptor / decryptor (encryption.ts lines 104-203) -/

/-- Input `File` object: name, content bytes, MIME type, lastModified.  The
`size` property equals the byte length of the content. -/
structure JsFile where
  name : String
  bytes : Bytes
  type : String
  lastModified : Nat
  deriving DecidableEq, Repr

/-- Result of `encryptFile` (encryption.ts:16-21 / 148-153).  In the source
`encryptedMetadata`, `key` and `iv` are base64 strings; the base64 transport
layer (proven an inverse pair for `arrayBufferToBase64` /
`base64ToArrayBuffer` below) is elided here, so `key` is the exported raw
key bytes and `iv` the raw IV bytes. -/
structure FileEncryptionResult where
  encryptedFile : AesGcmCiphertext
  encryptedMetadata : AesGcmCiphertext
  key : Bytes
  iv : Bytes
  deriving DecidableEq, Repr

/-- Model of `exportKey('raw', key)` (encryption.ts:144) for the generated
AES keys; a PBKDF2 key is never exported by the source. -/
def exportKeyRaw : CKey → Bytes
  | CKey.aesKey raw => raw
  | CKey.pbkdf2 _ _ _ => []

/-- Model of `importKey('raw', keyBuffer, 'AES-GCM', …)`
(encryption.ts:167-173). -/
def importKeyRaw (raw : Bytes) : CKey :=
  CKey.aesKey raw

/-- Model of `encryptFile` (encryption.ts:105-154): generate a fresh key and
IV, encrypt the file bytes under them, build the metadata record, encrypt it
under the SAME key and IV, export key and IV.  `keyEntropy` / `ivEntropy`
are the RNG draws; `now` is `Date.now()`. -/
def encryptFile (keyEntropy ivEntropy : Bytes) (file : JsFile) (now : Nat) :
    FileEncryptionResult :=
  let key := generateFileKey keyEntropy
  let iv := generateIV ivEntropy
  let encryptedFile := aesGcmEncrypt key iv (Plain.bytes file.bytes)
  let metadata : FileMetadata :=
    { originalName := file.name, size := file.bytes.length, type := file.type,
      lastModified := file.lastModified, encryptedAt := now }
  let encryptedMetadataBuffer := aesGcmEncrypt key iv (Plain.fileMeta metadata)
  { encryptedFile := encryptedFile,
    encryptedMetadata := encryptedMetadataBuffer,
    key := exportKeyRaw key,
    iv := iv }

/-- Which `crypto.subtle.decrypt` call `decryptFile` performs, in order. -/
inductive DecStep
  | fileBody
  | metadata
  deriving DecidableEq, Repr

/-- Success value of `decryptFile`: the `Blob` (its content bytes and its
MIME type, taken from the decrypted metadata, encryption.ts:200) plus the
parsed metadata object. -/
structure DecryptedFile where
  blobBytes : Bytes
  blobType : String
  metadata : FileMetadata
  deriving DecidableEq, Repr

/-- Model of `decryptFile` (encryption.ts:157-203): import the key, decrypt
the FILE CONTENT first (lines 176-183), then decrypt the metadata (lines
186-194) and parse it.  The first component records the sequence of
decryption attempts actually performed (a rejected `await` aborts the
function, so a failure on the file body means the metadata is never
touched); the second is the result, `none` for a thrown error. -/
def decryptFile (encryptedFile encryptedMetadata : AesGcmCiphertext)
    (keyRaw ivRaw : Bytes) : List DecStep × Option DecryptedFile :=
  let key := importKeyRaw keyRaw
  match aesGcmDecrypt key ivRaw encryptedFile with
  | none => ([DecStep.fileBody], none)
  | some filePt =>
    match aesGcmDecrypt key ivRaw encryptedMetadata with
    | none => ([DecStep.fileBody, DecStep.metadata], none)
    | some metaPt =>
      match filePt, metaPt with
      | Plain.bytes fileBytes, Plain.fileMeta metadata =>
        ([DecStep.fileBody, DecStep.metadata],
         some { blobBytes := fileBytes, blobType := metadata.type, metadata := metadata })
      | _, _ => ([DecStep.fileBody, DecStep.metadata], none)

/-! ## Encrypted file list (encryption.ts lines 205-254) -/

/-- The stored blob of `encryptFileList`: the source concatenates the 12-byte
IV and the ciphertext bytes and base64-encodes the pair
(encryption.ts:223-229); `decryptFileList` splits it back at offset 12
(encryption.ts:239-241).  The pair models that concatenation. -/
structure CombinedBlob where
  iv : Bytes
  ct : AesGcmCiphertext
  deriving DecidableEq, Repr

/-- Model of `encryptFileList` (encryption.ts:206-232): derive a key from
the password and the provided (or freshly generated) salt, encrypt the JSON
file list under a fresh IV, return the combined blob and the salt used. -/
def encryptFileList (fileList : List FileRecord) (password : String)
    (salt : Option Bytes) (saltEntropy ivEntropy : Bytes) :
    Except JsError (CombinedBlob × Bytes) :=
  let saltToUse := salt.getD (generateSalt saltEntropy)
  match deriveKeyFromPassword password saltToUse with
  | Except.error e => Except.error e
  | Except.ok key =>
    let iv := generateIV ivEntropy
    Except.ok (⟨iv, aesGcmEncrypt key iv (Plain.fileList fileList)⟩, saltToUse)

/-- Model of `decryptFileList` (encryption.ts:235-254): re-derive the key
from password and salt, split the combined blob, decrypt, `JSON.parse`.
An AEAD tag failure (wrong password) rejects with `OperationError`. -/
def decryptFileList (blob : CombinedBlob) (password : String) (saltB : Bytes) :
    Except JsError (List FileRecord) :=
  match deriveKeyFromPassword password saltB with
  | Except.error e => Except.error e
  | Except.ok key =>
    match aesGcmDecrypt key blob.iv blob.ct with
    | none => Except.error JsError.operationError
    | some (Plain.fileList l) => Except.ok l
    | some _ => Except.error JsError.syntaxError

/-! ## Download-URL codec (encryption.ts lines 275-290) -/

/-- Model of `generateDownloadUrl` (encryption.ts:276-279):
`origin + '/f/' + fileId + '#key=' + key + '&iv=' + iv`, with
`window.location.origin` as explicit argument. -/
def generateDownloadUrl (origin fileId key iv : String) : String :=
  origin ++ "/f/" ++ fileId ++ "#key=" ++ key ++ "&iv=" ++ iv

/-- Model of `window.location.hash`: the first `#` of the URL and everything
after it, or the empty string when the URL has no `#`. -/
def urlHash (url : String) : String :=
  String.mk (url.toList.dropWhile (fun c => c ≠ '#'))

/-- Portion of a URL that is sent to the server (path and query): everything
before the first `#`. -/
def urlServerPart (url : String) : String :=
  String.mk (url.toList.takeWhile (fun c => c ≠ '#'))

/-- Whether a character is a hexadecimal digit. -/
def isHexDigitChar (c : Char) : Bool :=
  c.isDigit || ('a' ≤ c && c ≤ 'f') || ('A' ≤ c && c ≤ 'F')

/-- Value of a hexadecimal digit character. -/
def hexVal (c : Char) : Nat :=
  if '0' ≤ c ∧ c ≤ '9' then c.toNat - '0'.toNat
  else if 'a' ≤ c ∧ c ≤ 'f' then c.toNat - 'a'.toNat + 10
  else c.toNat - 'A'.toNat + 10

/-- Percent- and plus-decoding applied by `URLSearchParams` to each name and
value (`application/x-www-form-urlencoded` parsing): `+` becomes a space,
`%hh` becomes the byte `hh`, an invalid escape is left as-is. -/
def formUrlDecode : List Char → List Char
  | [] => []
  | [c] => if c = '%' then ['%'] else [if c = '+' then ' ' else c]
  | [c, d] =>
    if c = '%' then '%' :: formUrlDecode [d]
    else (if c = '+' then ' ' else c) :: formUrlDecode [d]
  | c :: d :: e :: rest =>
    if c = '%' then
      if isHexDigitChar d ∧ isHexDigitChar e then
        Char.ofNat (16 * hexVal d + hexVal e) :: formUrlDecode rest
      else '%' :: formUrlDecode (d :: e :: rest)
    else (if c = '+' then ' ' else c) :: formUrlDecode (d :: e :: rest)

/-- Split a character list at every occurrence of a separator. -/
def splitOnChar (sep : Char) : List Char → List (List Char)
  | [] => [[]]
  | c :: rest =>
    let r := splitOnChar sep rest
    if c = sep then [] :: r
    else
      match r with
      | [] => [[c]]
      | s :: ss => (c :: s) :: ss

/-- One `name=value` segment of a `URLSearchParams` input: the name is
everything before the first `=`, the value everything after it (empty when
there is no `=`); both are form-url-decoded. -/
def parsePair (seg : List Char) : String × String :=
  let name := seg.takeWhile (fun c => c ≠ '=')
  let rest := seg.dropWhile (fun c => c ≠ '=')
  let value :=
    match rest with
    | [] => []
    | _ :: t => t
  (String.mk (formUrlDecode name), String.mk (formUrlDecode value))

/-- Model of `new URLSearchParams(fragment)`: split on `&`, drop empty
segments, parse each segment. -/
def urlSearchParams (fragment : List Char) : List (String × String) :=
  ((splitOnChar '&' fragment).filter (fun s => s ≠ [])).map parsePair

/-- Model of `params.get(name)`: value of the first pair with that name. -/
def getParam (pairs : List (String × String)) (name : String) : Option String :=
  (pairs.find? (fun p => p.1 == name)).map (fun p => p.2)

/-- Model of `x || undefined` on a nullable string: `null` and the empty
string (both falsy) become `undefined`. -/
def orUndefined : Option String → Option String
  | some s => if s = "" then none else some s
  | none => none

/-- Model of `parseUrlFragment` (encryption.ts:282-290): take
`window.location.hash`, drop the leading `#` (`substring(1)`), parse with
`URLSearchParams`, return `{key, iv}` with each component possibly
`undefined`. -/
def parseUrlFragment (hash : String) : Option String × Option String :=
  let fragment := hash.toList.drop 1
  let params := urlSearchParams fragment
  (orUndefined (getParam params "key"), orUndefined (getParam params "iv"))

/-- Character class under which a key/iv string survives the fragment round
trip: the standard base64 output alphabet without `+` (alphanumerics, `/`
and the `=` padding).  `+` is excluded because `URLSearchParams` decodes it
to a space. -/
def fragmentKeyChar (c : Char) : Bool :=
  c.isAlphanum || c = '/' || c = '='

/-! ## SecureDataManager (secureDataManager.ts) -/

/-- Payload of `SecureDataManager.encryptData` as stored
(secureDataManager.ts:7-11): ciphertext, a salt field (actually just the
encoded dataType tag, line 68), and the IV, all base64 in the source. -/
structure EncryptedData where
  encryptedContent : AesGcmCiphertext
  salt : Bytes
  iv : Bytes
  deriving DecidableEq, Repr

/-- Model of `SecureDataManager.deriveUserKey` (secureDataManager.ts:25-50):
PBKDF2-SHA256, 100000 iterations, password material
`userId + '_' + dataType + '_encryption_key_v1'` and hard-coded salt
`'secure_data_salt_' + dataType`.  No user-supplied secret is involved:
both inputs are built from the public pair (userId, dataType). -/
def SecureDataManager.deriveUserKey (userId dataType : String) : CKey :=
  CKey.pbkdf2 (userId ++ "_" ++ dataType ++ "_encryption_key_v1")
    (encodeText ("secure_data_salt_" ++ dataType)) 100000

/-- Model of `SecureDataManager.encryptData` (secureDataManager.ts:53-71):
derive the userId/dataType key, draw a fresh IV, encrypt the JSON payload. -/
def SecureDataManager.encryptData (data : Plain) (userId dataType : String)
    (ivEntropy : Bytes) : EncryptedData :=
  let key := SecureDataManager.deriveUserKey userId dataType
  let iv := generateIV ivEntropy
  { encryptedContent := aesGcmEncrypt key iv data,
    salt := encodeText dataType,
    iv := iv }

/-- Model of `SecureDataManager.decryptData` (secureDataManager.ts:74-87):
re-derive the key from (userId, dataType), decrypt, `JSON.parse`. -/
def SecureDataManager.decryptData (e : EncryptedData) (userId dataType : String) :
    Except JsError Plain :=
  let key := SecureDataManager.deriveUserKey userId dataType
  match aesGcmDecrypt key e.iv e.encryptedContent with
  | some pt => Except.ok pt
  | none => Except.error JsError.operationError

/-- Model of `SecureDataManager.encryptFileList` (secureDataManager.ts:90-94):
encrypt the list under dataType `'file_list'` (the JSON re-wrapping for
storage is elided; it is inverted by the `JSON.parse` of
`decryptFileList`). -/
def SecureDataManager.encryptFileList (fileList : List FileRecord)
    (userId : String) (ivEntropy : Bytes) : EncryptedData :=
  SecureDataManager.encryptData (Plain.fileList fileList) userId "file_list" ivEntropy

/-- Model of `SecureDataManager.decryptFileList` (secureDataManager.ts:97-105):
`try { … decryptData … } catch (error) { console.error(…); return []; }` —
EVERY failure, the authentication failure for a wrong secret included, is
swallowed into the empty list. -/
def SecureDataManager.decryptFileList (encryptedList : EncryptedData)
    (userId : String) : List FileRecord :=
  match SecureDataManager.decryptData encryptedList userId "file_list" with
  | Except.ok (Plain.fileList l) => l
  | _ => []

/-! ## fileManager.ts — encrypted index read-modify-write -/

/-- Model of the first `getUserFileList` (fileManager.ts:110-135): fetch the
user's row (`none` when absent), decrypt with the prompted password;
`try { … } catch (error) { console.error(…); return []; }` turns every
failure — a wrong password included — into the empty list. -/
def getUserFileList (row : Option (CombinedBlob × Bytes)) (password : String) :
    List FileRecord :=
  match row with
  | none => []
  | some (blob, salt) =>
    match decryptFileList blob password salt with
    | Except.ok l => l
    | Except.error _ => []

/-- List operation of the first `updateUserFileList` (fileManager.ts:161):
`const updatedList = [...currentList, newFile]` — an unconditional append. -/
def updateListV1 (currentList : List FileRecord) (newFile : FileRecord) :
    List FileRecord :=
  currentList ++ [newFile]

/-- Model of `Array.prototype.findIndex` (result `-1` becomes `none`). -/
def jsFindIndex (p : FileRecord → Bool) : List FileRecord → Option Nat
  | [] => none
  | a :: l => if p a then some 0 else (jsFindIndex p l).map (fun i => i + 1)

/-- Model of `fileList[i] = newFile` (index assignment). -/
def jsSetAt : List FileRecord → Nat → FileRecord → List FileRecord
  | [], _, _ => []
  | _ :: l, 0, r => r :: l
  | a :: l, n + 1, r => a :: jsSetAt l n r

/-- List operation of the second `updateUserFileList`
(fileManager.ts:559-565): find the index of an existing record with the same
`fileId`; replace it in place when found, append otherwise. -/
def updateListV2 (fileList : List FileRecord) (newFile : FileRecord) :
    List FileRecord :=
  match jsFindIndex (fun f => f.fileId == newFile.fileId) fileList with
  | some i => jsSetAt fileList i newFile
  | none => fileList ++ [newFile]

/-! ## FileDownload fragment validation (src/unnamed/part_002 lines 19-37) -/

/-- Model of the `useEffect` check in `FileDownload`: parse the fragment; if
either key or iv is missing set the "keys missing" error; otherwise test
both for base64 validity (`base64ToArrayBuffer` inside `try`), setting the
"keys are corrupted" error when either decode throws. -/
def fileDownloadKeyCheck (hash : String) : Except String (String × String) :=
  match parseUrlFragment hash with
  | (some key, some iv) =>
    match base64ToArrayBuffer key with
    | Except.error _ => Except.error "Invalid download link - encryption keys are corrupted"
    | Except.ok _ =>
      match base64ToArrayBuffer iv with
      | Except.error _ => Except.error "Invalid download link - encryption keys are corrupted"
      | Except.ok _ => Except.ok (key, iv)
  | _ => Except.error "Invalid download link - encryption keys missing"

/-- Specification-side restatement of the FileDownload acceptance condition,
following the spec's words for `decodeUrl`: the result is the parsed (key,
iv) pair exactly when both are present in the fragment and both survive a
base64 decode; otherwise no pair is produced. -/
def downloadKeyCheckSpec (hash : String) : Option (String × String) :=
  match parseUrlFragment hash with
  | (some key, some iv) =>
    if (base64ToArrayBuffer key).isOk && (base64ToArrayBuffer iv).isOk then
      some (key, iv)
    else none
  | _ => none

/-! ## Concrete sample values used by witnesses and counterexamples -/

/-- Sample file for concrete evaluations. -/
def demoFile : JsFile :=
  { name := "hello.txt", bytes := [104, 105], type := "text/plain", lastModified := 1700 }

/-- Sample index record with fileId `abc`. -/
def demoRecordA : FileRecord :=
  { id := "abc", fileId := "abc", originalName := "a.txt", size := 10,
    type := "text/plain", uploadDate := "2025-01-01", expiresAt := none,
    maxDownloads := none, downloadCount := 0, key := "k1", iv := "i1" }

/-- Updated record with the same fileId `abc` (different size and key). -/
def demoRecordB : FileRecord :=
  { demoRecordA with size := 999, key := "k2" }

/-- Two sample ciphertexts produced under the key `aesKey [1]` and IV `[2]`. -/
def demoCtFile : AesGcmCiphertext :=
  aesGcmEncrypt (CKey.aesKey [1]) [2] (Plain.bytes [3])

/-- Companion metadata ciphertext under the same key and IV. -/
def demoCtMeta : AesGcmCiphertext :=
  aesGcmEncrypt (CKey.aesKey [1]) [2]
    (Plain.fileMeta { originalName := "a", size := 1, type := "t",
                      lastModified := 0, encryptedAt := 0 })

/-! ## Claim theorems -/

/-- C1: for every file (bytes plus name, size deduced from the bytes, MIME
type), decrypting the output of `encryptFile` with the exported key and IV
recovers the original bytes exactly, as a blob tagged with the original MIME
type, together with a metadata object whose `originalName`, `size` and
`type` equal the input's. -/
theorem encryptFile_decryptFile_roundTrip (keyEntropy ivEntropy : Bytes)
    (file : JsFile) (now : Nat) :
    (decryptFile (encryptFile keyEntropy ivEntropy file now).encryptedFile
        (encryptFile keyEntropy ivEntropy file now).encryptedMetadata
        (encryptFile keyEntropy ivEntropy file now).key
        (encryptFile keyEntropy ivEntropy file now).iv).2 =
      some { blobBytes := file.bytes, blobType := file.type,
             metadata := { originalName := file.name, size := file.bytes.length,
                           type := file.type, lastModified := file.lastModified,
                           encryptedAt := now } } := by
  simp [encryptFile, decryptFile, aesGcmEncrypt, aesGcmDecrypt, generateFileKey,
        generateIV, exportKeyRaw, importKeyRaw]

/-- C3 (code bug witness): decrypting an encrypted index with a wrong secret
is swallowed into the empty list instead of raising a distinct
authentication error — both by the first `getUserFileList`
(fileManager.ts:110-135, `catch … return []`) and by
`SecureDataManager.decryptFileList` (secureDataManager.ts:97-105), even
though the original list was non-empty. -/
theorem wrongSecret_swallowed_to_empty_list :
    (encryptFileList [demoRecordA] "correct-password" none [7] [8]).toOption.map
        (fun rs => getUserFileList (some rs) "wrong-password") = some [] ∧
    SecureDataManager.decryptFileList
        (SecureDataManager.encryptFileList [demoRecordA] "alice" [9]) "bob" = [] ∧
    ([demoRecordA] : List FileRecord) ≠ [] := by
  decide

/-- C4 (counterexample): inside one `encryptFile` call the file bytes and the
metadata record — two distinct plaintexts — are encrypted under (key, nonce)
pairs that ARE both identical, contradicting the claim that the pairs are
never both identical for distinct plaintexts. -/
theorem encryptFile_nonce_reuse_cx :
    (encryptFile [1] [2] demoFile 5).encryptedFile.key =
      (encryptFile [1] [2] demoFile 5).encryptedMetadata.key ∧
    (encryptFile [1] [2] demoFile 5).encryptedFile.iv =
      (encryptFile [1] [2] demoFile 5).encryptedMetadata.iv ∧
    (encryptFile [1] [2] demoFile 5).encryptedFile.plaintext ≠
      (encryptFile [1] [2] demoFile 5).encryptedMetadata.plaintext := by
  decide

/-- C4 (amended): within a single `encryptFile` operation the file bytes and
the metadata record are always two distinct plaintexts encrypted under the
identical (key, nonce) pair — the nonce IS reused across distinct plaintexts
under the same key inside the operation. -/
theorem encryptFile_same_key_nonce_distinct_plaintexts
    (keyEntropy ivEntropy : Bytes) (file : JsFile) (now : Nat) :
    (encryptFile keyEntropy ivEntropy file now).encryptedFile.key =
      (encryptFile keyEntropy ivEntropy file now).encryptedMetadata.key ∧
    (encryptFile keyEntropy ivEntropy file now).encryptedFile.iv =
      (encryptFile keyEntropy ivEntropy file now).encryptedMetadata.iv ∧
    (encryptFile keyEntropy ivEntropy file now).encryptedFile.plaintext ≠
      (encryptFile keyEntropy ivEntropy file now).encryptedMetadata.plaintext := by
  refine ⟨rfl, rfl, ?_⟩
  simp [encryptFile, aesGcmEncrypt]

/-- Unfolding lemma: `updateListV2` on a list whose head matches the new
record's fileId replaces the head. -/
theorem updateListV2_cons_pos (a : FileRecord) (l : List FileRecord)
    (r : FileRecord) (h : (a.fileId == r.fileId) = true) :
    updateListV2 (a :: l) r = r :: l := by
  simp [updateListV2, jsFindIndex, h, jsSetAt]

/-- Unfolding lemma: `updateListV2` skips a non-matching head. -/
theorem updateListV2_cons_neg (a : FileRecord) (l : List FileRecord)
    (r : FileRecord) (h : (a.fileId == r.fileId) = false) :
    updateListV2 (a :: l) r = a :: updateListV2 l r := by
  simp only [updateListV2, jsFindIndex, h, Bool.false_eq_true, if_false]
  cases hj : jsFindIndex (fun f => f.fileId == r.fileId) l with
  | none => simp [hj]
  | some i => simp [hj, jsSetAt]

/-- C5 (amended): in the second implementation of `updateUserFileList`
(fileManager.ts:559-565) adding a record whose file identifier occurs
exactly once in the decrypted list replaces the prior entry in place: the
resulting list's entries with that identifier are exactly the one new
record.  (The first implementation, fileManager.ts:161, instead appends
unconditionally and duplicates the identifier — see the counterexample.) -/
theorem updateUserFileList_v2_upsert (fileList : List FileRecord)
    (newFile : FileRecord)
    (h : fileList.countP (fun f => f.fileId == newFile.fileId) = 1) :
    (updateListV2 fileList newFile).filter
        (fun f => f.fileId == newFile.fileId) = [newFile] := by
  induction fileList with
  | nil => simp at h
  | cons a l ih =>
    rw [List.countP_cons] at h
    by_cases ha : (a.fileId == newFile.fileId) = true
    · rw [updateListV2_cons_pos a l newFile ha]
      simp only [ha, if_true] at h
      have hl : l.countP (fun f => f.fileId == newFile.fileId) = 0 := by omega
      rw [List.filter_cons_of_pos (by simp)]
      rw [List.filter_eq_nil_iff.mpr]
      intro x hx hpx
      exact List.countP_eq_zero.mp hl x hx hpx
    · have ha' : (a.fileId == newFile.fileId) = false := by
        simpa using ha
      rw [updateListV2_cons_neg a l newFile ha']
      simp only [ha', Bool.false_eq_true, if_false, Nat.add_zero] at h
      rw [List.filter_cons_of_neg (by simp [ha'])]
      exact ih h

/-- Witness for C5's amended theorem at a concrete index: one record with
fileId `abc`, upserting an updated record with the same fileId. -/
theorem updateUserFileList_v2_upsert_witness :
    (updateListV2 [demoRecordA] demoRecordB).filter
        (fun f => f.fileId == demoRecordB.fileId) = [demoRecordB] :=
  updateUserFileList_v2_upsert [demoRecordA] demoRecordB (by decide)

/-- C5 (counterexample): the first implementation of `updateUserFileList`
(fileManager.ts:161) appends unconditionally, so adding a record whose
fileId already occurs yields TWO entries with that identifier, not one. -/
theorem updateUserFileList_v1_duplicates_cx :
    demoRecordA.fileId = demoRecordB.fileId ∧
    (updateListV1 [demoRecordA] demoRecordB).countP
        (fun f => f.fileId == demoRecordB.fileId) = 2 ∧
    (updateListV1 [demoRecordA] demoRecordB).countP
        (fun f => f.fileId == demoRecordB.fileId) ≠ 1 := by
  decide

/-- C6: `SecureDataManager.decryptData` inverts
`SecureDataManager.encryptData` for every payload, and the encryption key is
derived purely from the public pair (userId, dataType) with a hard-coded
salt — the round trip needs no user-supplied secret, so any party knowing
the userId can decrypt every blob the class produced. -/
theorem secureDataManager_roundTrip_public_inputs (d : Plain)
    (userId dataType : String) (ivEntropy : Bytes) :
    SecureDataManager.decryptData
        (SecureDataManager.encryptData d userId dataType ivEntropy)
        userId dataType = Except.ok d ∧
    (SecureDataManager.encryptData d userId dataType ivEntropy).encryptedContent.key =
      CKey.pbkdf2 (userId ++ "_" ++ dataType ++ "_encryption_key_v1")
        (encodeText ("secure_data_salt_" ++ dataType)) 100000 := by
  constructor
  · simp [SecureDataManager.encryptData, SecureDataManager.decryptData,
          SecureDataManager.deriveUserKey, aesGcmEncrypt, aesGcmDecrypt, generateIV]
  · rfl

/-- C7 (counterexample): with a wrong key — where the claim says the cheap
metadata authentication failure must occur before any attempt on the file
body — `decryptFile` attempts the FILE BODY (and only it): the trace is
`[fileBody]` and no metadata decryption is ever attempted. -/
theorem decryptFile_metadata_not_first_cx :
    (decryptFile demoCtFile demoCtMeta [9] [2]).1 = [DecStep.fileBody] ∧
    DecStep.metadata ∉ (decryptFile demoCtFile demoCtMeta [9] [2]).1 ∧
    (decryptFile demoCtFile demoCtMeta [9] [2]).2 = none := by
  decide

/-- C7 (amended): `decryptFile` always decrypts the file body FIRST; the
metadata is attempted only after the file-body decryption has succeeded, so
an authentication failure on the (potentially large) file body aborts the
operation before the metadata is touched. -/
theorem decryptFile_decrypts_file_body_first (ef em : AesGcmCiphertext)
    (keyRaw ivRaw : Bytes) :
    (decryptFile ef em keyRaw ivRaw).1.head? = some DecStep.fileBody ∧
    ((decryptFile ef em keyRaw ivRaw).1 = [DecStep.fileBody] ∧
        aesGcmDecrypt (importKeyRaw keyRaw) ivRaw ef = none ∨
      (decryptFile ef em keyRaw ivRaw).1 = [DecStep.fileBody, DecStep.metadata] ∧
        (aesGcmDecrypt (importKeyRaw keyRaw) ivRaw ef).isSome = true) := by
  simp only [decryptFile]
  cases h : aesGcmDecrypt (importKeyRaw keyRaw) ivRaw ef with
  | none => simp
  | some filePt =>
    cases h2 : aesGcmDecrypt (importKeyRaw keyRaw) ivRaw em with
    | none => simp
    | some metaPt => cases filePt <;> cases metaPt <;> simp

/-- C9 (counterexample): `deriveKeyFromPassword` succeeds on a salt of the
wrong length (3 bytes instead of 16) and on an empty secret — the claim that
derivation fails on exactly these invalid inputs with an `InvalidInputError`
is false (the source contains no validation and no such error type). -/
theorem deriveKeyFromPassword_no_validation_cx :
    (deriveKeyFromPassword "pw" [1, 2, 3]).isOk = true ∧
    ([1, 2, 3] : Bytes).length ≠ 16 ∧
    (deriveKeyFromPassword "" (List.replicate 16 0)).isOk = true := by
  decide

/-- C9 (amended): `deriveKeyFromPassword` performs no input validation: for
every secret (the empty one included) and salt of any length it succeeds,
and it is deterministic and injective — two derivations agree exactly when
both the secret and the salt agree (PBKDF2-SHA256, 100000 iterations). -/
theorem deriveKeyFromPassword_total_deterministic (p1 : String) (s1 : Bytes)
    (p2 : String) (s2 : Bytes) :
    (deriveKeyFromPassword p1 s1).isOk = true ∧
    (deriveKeyFromPassword p1 s1 = deriveKeyFromPassword p2 s2 ↔ p1 = p2 ∧ s1 = s2) := by
  refine ⟨rfl, ?_, ?_⟩
  · intro h
    simpa [deriveKeyFromPassword] using h
  · rintro ⟨rfl, rfl⟩
    rfl

/-- Witness for C9's amended theorem at concrete inputs. -/
theorem deriveKeyFromPassword_total_deterministic_witness :
    (deriveKeyFromPassword "pw" [1]).isOk = true :=
  (deriveKeyFromPassword_total_deterministic "pw" [1] "pw" [1]).1

/-- Decoding a character produced by `b64Char` from a 6-bit value recovers
that value. -/
theorem b64Val_b64Char (n : Nat) (h : n < 64) : b64Val (b64Char n) = some n := by
  have hall : ∀ m : Fin 64, b64Val (b64Char m.val) = some m.val := by decide
  exact hall ⟨n, h⟩

/-- A 6-bit value never encodes to the padding character. -/
theorem b64Char_ne_pad (n : Nat) (h : n < 64) : ¬ b64Char n = '=' := by
  intro he
  have h1 := b64Val_b64Char n h
  rw [he] at h1
  have h2 : b64Val '=' = none := by decide
  rw [h2] at h1
  cases h1

/-- Every character `b64Char` can produce lies in the standard alphabet. -/
theorem stdB64Char_b64Char (n : Nat) : stdB64Char (b64Char n) = true := by
  by_cases h : n < 64
  · have hall : ∀ m : Fin 64, stdB64Char (b64Char m.val) = true := by decide
    exact hall ⟨n, h⟩
  · unfold b64Char
    have hl : base64Alphabet.length = 64 := by decide
    rw [List.getD_eq_getElem?_getD, List.getElem?_eq_none (by omega)]
    decide

/-- Every character of a base64 encoding lies in the standard base64
alphabet (padding included). -/
theorem base64EncodeList_all_std : ∀ (b : Bytes),
    (base64EncodeList b).all stdB64Char = true
  | [] => rfl
  | [b1] => by
    have hpad : stdB64Char '=' = true := by decide
    simp [base64EncodeList, stdB64Char_b64Char, hpad]
  | [b1, b2] => by
    have hpad : stdB64Char '=' = true := by decide
    simp [base64EncodeList, stdB64Char_b64Char, hpad]
  | b1 :: b2 :: b3 :: rest => by
    simp [base64EncodeList, stdB64Char_b64Char,
          base64EncodeList_all_std rest]

/-- Decoding inverts encoding on byte lists. -/
theorem base64DecodeList_encodeList : ∀ (b : Bytes), (∀ x ∈ b, x < 256) →
    base64DecodeList (base64EncodeList b) = some b
  | [], _ => rfl
  | [b1], h => by
    have h1 : b1 < 256 := h b1 (by simp)
    have e1 : b64Val (b64Char (b1 / 4)) = some (b1 / 4) :=
      b64Val_b64Char _ (by omega)
    have e2 : b64Val (b64Char (b1 % 4 * 16)) = some (b1 % 4 * 16) :=
      b64Val_b64Char _ (by omega)
    simp [base64EncodeList, base64DecodeList, e1, e2]
    omega
  | [b1, b2], h => by
    have h1 : b1 < 256 := h b1 (by simp)
    have h2 : b2 < 256 := h b2 (by simp)
    have e1 : b64Val (b64Char (b1 / 4)) = some (b1 / 4) :=
      b64Val_b64Char _ (by omega)
    have e2 : b64Val (b64Char (b1 % 4 * 16 + b2 / 16)) = some (b1 % 4 * 16 + b2 / 16) :=
      b64Val_b64Char _ (by omega)
    have e3 : b64Val (b64Char (b2 % 16 * 4)) = some (b2 % 16 * 4) :=
      b64Val_b64Char _ (by omega)
    have n3 : ¬ b64Char (b2 % 16 * 4) = '=' := b64Char_ne_pad _ (by omega)
    simp [base64EncodeList, base64DecodeList, e1, e2, e3, n3]
    constructor <;> omega
  | b1 :: b2 :: b3 :: rest, h => by
    have h1 : b1 < 256 := h b1 (by simp)
    have h2 : b2 < 256 := h b2 (by simp)
    have h3 : b3 < 256 := h b3 (by simp)
    have e1 : b64Val (b64Char (b1 / 4)) = some (b1 / 4) :=
      b64Val_b64Char _ (by omega)
    have e2 : b64Val (b64Char (b1 % 4 * 16 + b2 / 16)) = some (b1 % 4 * 16 + b2 / 16) :=
      b64Val_b64Char _ (by omega)
    have e3 : b64Val (b64Char (b2 % 16 * 4 + b3 / 64)) = some (b2 % 16 * 4 + b3 / 64) :=
      b64Val_b64Char _ (by omega)
    have e4 : b64Val (b64Char (b3 % 64)) = some (b3 % 64) :=
      b64Val_b64Char _ (by omega)
    have n3 : ¬ b64Char (b2 % 16 * 4 + b3 / 64) = '=' := b64Char_ne_pad _ (by omega)
    have n4 : ¬ b64Char (b3 % 64) = '=' := b64Char_ne_pad _ (by omega)
    have ih := base64DecodeList_encodeList rest (fun x hx => h x (by simp [hx]))
    cases rest with
    | nil =>
      simp [base64EncodeList, base64DecodeList, e1, e2, e3, e4, n3, n4]
      refine ⟨by omega, by omega, by omega⟩
    | cons r5 rest5 =>
      simp [base64EncodeList, base64DecodeList, e1, e2, e3, e4, n3, n4, ih]
      refine ⟨by omega, by omega, by omega⟩

/-- C8 (counterexample): `arrayBufferToBase64` output is NOT base64url-safe:
the byte `251` encodes to `+w==`, whose characters `+` and `=` lie outside
the URL-safe alphabet. -/
theorem arrayBufferToBase64_not_urlSafe_cx :
    arrayBufferToBase64 [251] = "+w==" ∧
    (arrayBufferToBase64 [251]).toList.all base64UrlSafeChar = false := by
  decide

/-- C8 (amended): the encoding helpers are an inverse pair —
`base64ToArrayBuffer (arrayBufferToBase64 b) = ok b` for every byte
sequence — but the text produced is STANDARD base64 (alphabet
`A-Z a-z 0-9 + /` with `=` padding), not the URL-safe base64url alphabet. -/
theorem base64_roundTrip_standard_alphabet (b : Bytes) (h : ∀ x ∈ b, x < 256) :
    base64ToArrayBuffer (arrayBufferToBase64 b) = Except.ok b ∧
    (arrayBufferToBase64 b).toList.all stdB64Char = true := by
  constructor
  · unfold base64ToArrayBuffer arrayBufferToBase64
    rw [show (String.mk (base64EncodeList b)).toList = base64EncodeList b from rfl]
    rw [base64DecodeList_encodeList b h]
  · unfold arrayBufferToBase64
    rw [show (String.mk (base64EncodeList b)).toList = base64EncodeList b from rfl]
    exact base64EncodeList_all_std b

/-- Witness for C8's amended theorem at a concrete byte sequence. -/
theorem base64_roundTrip_standard_alphabet_witness :
    base64ToArrayBuffer (arrayBufferToBase64 [0, 255, 10]) = Except.ok [0, 255, 10] ∧
    (arrayBufferToBase64 [0, 255, 10]).toList.all stdB64Char = true :=
  base64_roundTrip_standard_alphabet [0, 255, 10] (by decide)

theorem toList_append (s t : String) : (s ++ t).toList = s.toList ++ t.toList := rfl

theorem url_toList_flat (o f k i : String) :
    (generateDownloadUrl o f k i).toList =
      (o.toList ++ ['/', 'f', '/'] ++ f.toList)
        ++ '#' :: ((['k', 'e', 'y', '='] ++ k.toList)
        ++ '&' :: (['i', 'v', '='] ++ i.toList)) := by
  simp [generateDownloadUrl, toList_append]

theorem takeWhile_append_stop {α : Type} (p : α → Bool) (xs : List α) (c : α)
    (ys : List α) (hxs : ∀ x ∈ xs, p x = true) (hc : p c = false) :
    (xs ++ c :: ys).takeWhile p = xs := by
  induction xs with
  | nil => simp [List.takeWhile_cons, hc]
  | cons a l ih =>
    have ha : p a = true := hxs a (by simp)
    simp [List.takeWhile_cons, ha, ih (fun x hx => hxs x (by simp [hx]))]

theorem dropWhile_append_stop {α : Type} (p : α → Bool) (xs : List α) (c : α)
    (ys : List α) (hxs : ∀ x ∈ xs, p x = true) (hc : p c = false) :
    (xs ++ c :: ys).dropWhile p = c :: ys := by
  induction xs with
  | nil => simp [List.dropWhile_cons, hc]
  | cons a l ih =>
    have ha : p a = true := hxs a (by simp)
    simp [List.dropWhile_cons, ha, ih (fun x hx => hxs x (by simp [hx]))]

theorem splitOnChar_no_sep (sep : Char) :
    ∀ (xs : List Char), (∀ x ∈ xs, ¬ x = sep) → splitOnChar sep xs = [xs]
  | [], _ => rfl
  | c :: xs, h => by
    have hc : ¬ c = sep := h c (by simp)
    simp [splitOnChar, hc, splitOnChar_no_sep sep xs (fun x hx => h x (by simp [hx]))]

theorem splitOnChar_append (sep : Char) :
    ∀ (xs ys : List Char), (∀ x ∈ xs, ¬ x = sep) →
      splitOnChar sep (xs ++ sep :: ys) = xs :: splitOnChar sep ys
  | [], ys, _ => by simp [splitOnChar]
  | c :: xs, ys, h => by
    have hc : ¬ c = sep := h c (by simp)
    have ih := splitOnChar_append sep xs ys (fun x hx => h x (by simp [hx]))
    simp [splitOnChar, hc, ih]

theorem formUrlDecode_id : ∀ (xs : List Char),
    (∀ c ∈ xs, ¬ c = '+' ∧ ¬ c = '%') → formUrlDecode xs = xs
  | [], _ => rfl
  | [c], h => by
    have hc := h c (by simp)
    simp [formUrlDecode, hc.1, hc.2]
  | [c, d], h => by
    have hc := h c (by simp)
    have hd := h d (by simp)
    simp [formUrlDecode, hc.1, hc.2, hd.1, hd.2]
  | c :: d :: e :: rest, h => by
    have hc := h c (by simp)
    have ih := formUrlDecode_id (d :: e :: rest)
      (fun x hx => h x (by simp at hx ⊢; tauto))
    simp [formUrlDecode, hc.1, hc.2, ih]

theorem fragmentKeyChar_spec (c : Char) (h : fragmentKeyChar c = true) :
    ¬ c = '#' ∧ ¬ c = '&' ∧ ¬ c = '+' ∧ ¬ c = '%' := by
  refine ⟨?_, ?_, ?_, ?_⟩ <;> (rintro rfl; revert h; decide)


/-- C2 (amended): the server-visible part of a download URL (everything
before the first `#`) is always exactly `origin/f/fileId`, independent of
key and iv — key/nonce material appears only in the fragment; and decoding
recovers the exact key and iv strings PROVIDED both are non-empty and drawn
from the base64 alphabet without `+` (`URLSearchParams` decodes `+` to a
space, so real base64 keys containing `+` are corrupted — see the
counterexample). -/
theorem generateDownloadUrl_fragment_props (origin fileId key iv : String)
    (hk : ¬ key = "") (hi : ¬ iv = "")
    (hkc : key.toList.all fragmentKeyChar = true)
    (hic : iv.toList.all fragmentKeyChar = true)
    (ho : ∀ c ∈ origin.toList, ¬ c = '#') (hf : ∀ c ∈ fileId.toList, ¬ c = '#') :
    (∀ key2 iv2 : String,
        urlServerPart (generateDownloadUrl origin fileId key2 iv2) =
          origin ++ "/f/" ++ fileId) ∧
    parseUrlFragment (urlHash (generateDownloadUrl origin fileId key iv)) =
      (some key, some iv) := by
  simp only [List.all_eq_true] at hkc hic
  have hkS : ∀ c ∈ key.toList, ¬ c = '#' ∧ ¬ c = '&' ∧ ¬ c = '+' ∧ ¬ c = '%' :=
    fun c hc => fragmentKeyChar_spec c (hkc c hc)
  have hiS : ∀ c ∈ iv.toList, ¬ c = '#' ∧ ¬ c = '&' ∧ ¬ c = '+' ∧ ¬ c = '%' :=
    fun c hc => fragmentKeyChar_spec c (hic c hc)
  have hpre : ∀ x ∈ origin.toList ++ ['/', 'f', '/'] ++ fileId.toList,
      (fun c => decide ¬(c = '#')) x = true := by
    intro x hx
    simp only [List.mem_append, List.mem_cons, List.not_mem_nil, or_false] at hx
    have hxne : ¬ x = '#' := by
      rcases hx with (hx | hx) | hx
      · exact ho x hx
      · rcases hx with rfl | rfl | rfl <;> decide
      · exact hf x hx
    exact decide_eq_true hxne
  constructor
  · intro k2 i2
    unfold urlServerPart
    rw [url_toList_flat]
    rw [takeWhile_append_stop _ _ _ _ hpre (by decide)]
    obtain ⟨lo⟩ := origin
    obtain ⟨lf⟩ := fileId
    rfl
  · unfold urlHash
    rw [url_toList_flat]
    rw [dropWhile_append_stop _ _ _ _ hpre (by decide)]
    have hsplit : splitOnChar '&'
        ((['k', 'e', 'y', '='] ++ key.toList) ++ '&' :: (['i', 'v', '='] ++ iv.toList)) =
        [['k', 'e', 'y', '='] ++ key.toList, ['i', 'v', '='] ++ iv.toList] := by
      rw [splitOnChar_append '&' _ _ ?noampk]
      rw [splitOnChar_no_sep '&' _ ?noampi]
      case noampk =>
        intro x hx
        simp only [List.mem_append, List.mem_cons, List.not_mem_nil, or_false] at hx
        rcases hx with (rfl | rfl | rfl | rfl) | hx
        · decide
        · decide
        · decide
        · decide
        · exact (hkS x hx).2.1
      case noampi =>
        intro x hx
        simp only [List.mem_append, List.mem_cons, List.not_mem_nil, or_false] at hx
        rcases hx with (rfl | rfl | rfl) | hx
        · decide
        · decide
        · decide
        · exact (hiS x hx).2.1
    have hp1 : parsePair (['k', 'e', 'y', '='] ++ key.toList) = ("key", key) := by
      unfold parsePair
      rw [show ['k', 'e', 'y', '='] ++ key.toList = ['k', 'e', 'y'] ++ '=' :: key.toList from rfl]
      rw [takeWhile_append_stop _ _ _ _ (by decide) (by decide)]
      rw [dropWhile_append_stop _ _ _ _ (by decide) (by decide)]
      simp only [formUrlDecode_id key.toList
        (fun c hc => ⟨(hkS c hc).2.2.1, (hkS c hc).2.2.2⟩)]
      rfl
    have hp2 : parsePair (['i', 'v', '='] ++ iv.toList) = ("iv", iv) := by
      unfold parsePair
      rw [show ['i', 'v', '='] ++ iv.toList = ['i', 'v'] ++ '=' :: iv.toList from rfl]
      rw [takeWhile_append_stop _ _ _ _ (by decide) (by decide)]
      rw [dropWhile_append_stop _ _ _ _ (by decide) (by decide)]
      simp only [formUrlDecode_id iv.toList
        (fun c hc => ⟨(hiS c hc).2.2.1, (hiS c hc).2.2.2⟩)]
      rfl
    have hbk : (("key" : String) == "key") = true := by decide
    have hbi1 : (("key" : String) == "iv") = false := by decide
    have hbi2 : (("iv" : String) == "iv") = true := by decide
    simp only [parseUrlFragment, urlSearchParams, List.drop_succ_cons, List.drop_zero]
    rw [show (String.mk ('#' :: ((['k', 'e', 'y', '='] ++ key.toList)
        ++ '&' :: (['i', 'v', '='] ++ iv.toList)))).toList.drop 1 =
        (['k', 'e', 'y', '='] ++ key.toList) ++ '&' :: (['i', 'v', '='] ++ iv.toList) from rfl]
    rw [hsplit]
    have hp1x : parsePair ('k' :: 'e' :: 'y' :: '=' :: key.data) = ("key", key) := hp1
    have hp2x : parsePair ('i' :: 'v' :: '=' :: iv.data) = ("iv", iv) := hp2
    simp [hp1, hp2, hp1x, hp2x, getParam, List.find?, hbk, hbi1, hbi2, orUndefined, hk, hi]

/-- Witness for C2's amended theorem at a concrete URL. -/
theorem generateDownloadUrl_fragment_props_witness :
    urlServerPart (generateDownloadUrl "https://x.example" "abc" "Zm9v" "MTIy") =
      "https://x.example" ++ "/f/" ++ "abc" ∧
    parseUrlFragment (urlHash (generateDownloadUrl "https://x.example" "abc" "Zm9v" "MTIy")) =
      (some "Zm9v", some "MTIy") :=
  have h := generateDownloadUrl_fragment_props "https://x.example" "abc" "Zm9v" "MTIy"
    (by decide) (by decide) (by decide) (by decide) (by decide) (by decide)
  ⟨h.1 "Zm9v" "MTIy", h.2⟩

/-- C2 (counterexample): a real exported key can base64-encode to `+A==`,
and decoding the URL built from it does NOT recover the original key:
`URLSearchParams` turns the `+` into a space, so the parsed key is ` A==`. -/
theorem parseUrl_plus_corrupts_key_cx :
    arrayBufferToBase64 [248] = "+A==" ∧
    parseUrlFragment (urlHash (generateDownloadUrl "https://x.example" "f1" "+A==" "AA==")) =
      (some " A==", some "AA==") ∧
    ¬ (" A==" : String) = "+A==" := by
  decide

/-- C10 (counterexample): `parseUrlFragment` itself returns partial,
unvalidated results with no error signal: a fragment with only a key yields
`(some key, none)`, and malformed non-base64 values are returned as-is. -/
theorem parseUrlFragment_partial_unvalidated_cx :
    parseUrlFragment "#key=abc" = (some "abc", none) ∧
    parseUrlFragment "#key=*bad*&iv=*x*" = (some "*bad*", some "*x*") ∧
    (base64ToArrayBuffer "*bad*").isOk = false := by
  decide

/-- C10 (amended): the FileDownload component's layered check accepts a URL
fragment exactly when both key and iv are present and both are
base64-decodable, returning the parsed pair, and otherwise surfaces an error
message (not a distinct `MissingKeyMaterialError` type); it never passes a
partial or unvalidated pair through. -/
theorem fileDownloadKeyCheck_matches_spec (hash : String) :
    (fileDownloadKeyCheck hash).toOption = downloadKeyCheckSpec hash := by
  unfold fileDownloadKeyCheck downloadKeyCheckSpec
  cases hp : parseUrlFragment hash with
  | mk kOpt iOpt =>
    cases kOpt with
    | none => simp [Except.toOption]
    | some k =>
      cases iOpt with
      | none => simp [Except.toOption]
      | some i =>
        cases hbk : base64ToArrayBuffer k with
        | error e => simp [hbk, Except.isOk, Except.toBool, Except.toOption]
        | ok kb =>
          cases hbi : base64ToArrayBuffer i with
          | error e => simp [hbk, hbi, Except.isOk, Except.toBool, Except.toOption]
          | ok ib => simp [hbk, hbi, Except.isOk, Except.toBool, Except.toOption]

end ShardCipher
